import Mathlib

/-!
Shallow embedding of the json-to-schema-converter library.

Sources:
* `src/unnamed/part_003` — the current implementation (`objectToSchema`,
  depth-aware builders, `mergeObjectSchemas`, `deduplicateSchemas`).
* `src/src/index.ts` — the older implementation (`generateJsonSchema`,
  no depth option), embedded in namespace `V0`.

`mergeObjectSchemas` and `deduplicateSchemas` are byte-identical in the two
files and are defined once here; the string-format regexes are identical up
to the equivalent character classes `[+-]` and `[+\-]`, so the two
`generateStringSchema` embeddings share the matcher functions.
-/

/-- The JSON Schema draft versions accepted by `JsonSchemaOptions.schemaVersion`
(`"07" | "2019-09" | "2020-12"` in the source). -/
inductive SchemaVersion where
  | v07
  | v2019_09
  | v2020_12
deriving DecidableEq

/-- A JSON-like runtime value, the input of `objectToSchema`.  Numbers are
modelled by an integer payload together with whether `Number.isInteger` holds
of them (the generator inspects nothing else about a number); `other s` models
a host value outside the JSON universe whose `typeof` is the string `s`
(e.g. `"symbol"`).  Object fields are an insertion-ordered association list
mirroring a JS object's own enumerable keys, which are pairwise distinct in
JS; theorems quantifying over field lists carry a `Nodup` hypothesis where
that distinctness matters. -/
inductive Json where
  | null
  | bool (b : Bool)
  | num (payload : Int) (isInteger : Bool)
  | str (s : String)
  | arr (elements : List Json)
  | obj (fields : List (String × Json))
  | other (typeName : String)

/-- A Schema Fragment: the open record produced by the library, restricted to
the attributes the library reads and writes (`type`, `format`, `properties`,
`required`, `items`, `oneOf`).  Attribute lists keep insertion order, so
structural equality of `Fragment` coincides with equality of the JS
`JSON.stringify` serialisation that the source uses for all comparisons. -/
inductive Fragment where
  | mk (type : Option String) (format : Option String)
       (properties : Option (List (String × Fragment)))
       (required : Option (List String))
       (items : Option Fragment)
       (oneOf : Option (List Fragment))

def Fragment.type : Fragment → Option String
  | .mk t _ _ _ _ _ => t

def Fragment.format : Fragment → Option String
  | .mk _ f _ _ _ _ => f

def Fragment.properties : Fragment → Option (List (String × Fragment))
  | .mk _ _ p _ _ _ => p

def Fragment.required : Fragment → Option (List String)
  | .mk _ _ _ r _ _ => r

def Fragment.items : Fragment → Option Fragment
  | .mk _ _ _ _ i _ => i

def Fragment.oneOf : Fragment → Option (List Fragment)
  | .mk _ _ _ _ _ o => o

mutual

def decEqFragment : (a b : Fragment) → Decidable (a = b)
  | .mk t1 f1 p1 r1 i1 o1, .mk t2 f2 p2 r2 i2 o2 =>
    if h1 : t1 = t2 then
      if h2 : f1 = f2 then
        if h4 : r1 = r2 then
          match decEqOptProps p1 p2 with
          | isTrue h3 =>
            match decEqOptFrag i1 i2 with
            | isTrue h5 =>
              match decEqOptFragList o1 o2 with
              | isTrue h6 => isTrue (by rw [h1, h2, h3, h4, h5, h6])
              | isFalse h6 => isFalse (fun he => h6 (by cases he; rfl))
            | isFalse h5 => isFalse (fun he => h5 (by cases he; rfl))
          | isFalse h3 => isFalse (fun he => h3 (by cases he; rfl))
        else isFalse (fun he => h4 (by cases he; rfl))
      else isFalse (fun he => h2 (by cases he; rfl))
    else isFalse (fun he => h1 (by cases he; rfl))
termination_by structural a _ => a

def decEqOptProps : (a b : Option (List (String × Fragment))) → Decidable (a = b)
  | none, none => isTrue rfl
  | some x, some y =>
    match decEqProps x y with
    | isTrue h => isTrue (by rw [h])
    | isFalse h => isFalse (fun he => h (by cases he; rfl))
  | none, some _ => isFalse (fun he => by cases he)
  | some _, none => isFalse (fun he => by cases he)
termination_by structural a _ => a

def decEqProps : (a b : List (String × Fragment)) → Decidable (a = b)
  | [], [] => isTrue rfl
  | (k1, v1) :: xs, (k2, v2) :: ys =>
    if hk : k1 = k2 then
      match decEqFragment v1 v2 with
      | isTrue hv =>
        match decEqProps xs ys with
        | isTrue ht => isTrue (by rw [hk, hv, ht])
        | isFalse ht => isFalse (fun he => ht (by cases he; rfl))
      | isFalse hv => isFalse (fun he => hv (by cases he; rfl))
    else isFalse (fun he => hk (by cases he; rfl))
  | [], _ :: _ => isFalse (fun he => by cases he)
  | _ :: _, [] => isFalse (fun he => by cases he)
termination_by structural a _ => a

def decEqOptFrag : (a b : Option Fragment) → Decidable (a = b)
  | none, none => isTrue rfl
  | some x, some y =>
    match decEqFragment x y with
    | isTrue h => isTrue (by rw [h])
    | isFalse h => isFalse (fun he => h (by cases he; rfl))
  | none, some _ => isFalse (fun he => by cases he)
  | some _, none => isFalse (fun he => by cases he)
termination_by structural a _ => a

def decEqOptFragList : (a b : Option (List Fragment)) → Decidable (a = b)
  | none, none => isTrue rfl
  | some x, some y =>
    match decEqFragList x y with
    | isTrue h => isTrue (by rw [h])
    | isFalse h => isFalse (fun he => h (by cases he; rfl))
  | none, some _ => isFalse (fun he => by cases he)
  | some _, none => isFalse (fun he => by cases he)
termination_by structural a _ => a

def decEqFragList : (a b : List Fragment) → Decidable (a = b)
  | [], [] => isTrue rfl
  | x :: xs, y :: ys =>
    match decEqFragment x y with
    | isTrue h =>
      match decEqFragList xs ys with
      | isTrue ht => isTrue (by rw [h, ht])
      | isFalse ht => isFalse (fun he => ht (by cases he; rfl))
    | isFalse h => isFalse (fun he => h (by cases he; rfl))
  | [], _ :: _ => isFalse (fun he => by cases he)
  | _ :: _, [] => isFalse (fun he => by cases he)
termination_by structural a _ => a

end

instance : DecidableEq Fragment := decEqFragment

/-- The shorthand `{type: t}` fragment the source writes in many places. -/
def Fragment.typeOnly (t : String) : Fragment :=
  .mk (some t) none none none none none

/-- The empty fragment `{}` (the `items` of an empty array). -/
def Fragment.empty : Fragment :=
  .mk none none none none none none

/-- The characters matched by `\s` in a JS regular expression: ASCII
whitespace, no-break space, the Unicode space separators, the line and
paragraph separators, and the byte-order mark. -/
def isJsWhitespace (c : Char) : Bool :=
  c == ' ' || c == '\t' || c == '\n' || c == '\r' ||
  c.val == 0x0b || c.val == 0x0c ||
  c.val == 0xa0 || c.val == 0x1680 || (0x2000 ≤ c.val && c.val ≤ 0x200a) ||
  c.val == 0x2028 || c.val == 0x2029 || c.val == 0x202f || c.val == 0x205f ||
  c.val == 0x3000 || c.val == 0xfeff

/-- The tail of the date-time regex after the time-zone marker:
`(Z|[+-]\d{2}:\d{2})?$`. -/
def matchTimeZone : List Char → Bool
  | [] => true
  | ['Z'] => true
  | [c, h1, h2, ':', m1, m2] =>
    (c == '+' || c == '-') && [h1, h2, m1, m2].all Char.isDigit
  | _ => false

/-- The tail of the date-time regex after the seconds: `(\.\d{3})?` followed by
the optional time zone and the end anchor. -/
def matchFraction : List Char → Bool
  | '.' :: a :: b :: c :: rest =>
    [a, b, c].all Char.isDigit && matchTimeZone rest
  | l => matchTimeZone l

/-- The anchored regex
`^\d{4}-\d{2}-\d{2}(T\d{2}:\d{2}:\d{2}(\.\d{3})?(Z|[+-]\d{2}:\d{2})?)?$`
of the date-time check, as a character-list matcher. -/
def matchesDateTimeChars : List Char → Bool
  | d1 :: d2 :: d3 :: d4 :: '-' :: m1 :: m2 :: '-' :: a1 :: a2 :: rest =>
    [d1, d2, d3, d4, m1, m2, a1, a2].all Char.isDigit &&
    (match rest with
     | [] => true
     | 'T' :: h1 :: h2 :: ':' :: i1 :: i2 :: ':' :: s1 :: s2 :: rest2 =>
       [h1, h2, i1, i2, s1, s2].all Char.isDigit && matchFraction rest2
     | _ => false)
  | _ => false

def matchesDateTime (s : String) : Bool :=
  matchesDateTimeChars s.data

/-- The anchored regex `^[^\s@]+@[^\s@]+\.[^\s@]+$` of the email check.  Both
character classes exclude `@`, so a match splits the string at its unique `@`
into a non-empty local part and a domain that contains an interior dot. -/
def matchesEmailChars (l : List Char) : Bool :=
  let localPart := l.takeWhile (fun c => c != '@')
  match l.dropWhile (fun c => c != '@') with
  | '@' :: domain =>
    !localPart.isEmpty && localPart.all (fun c => !isJsWhitespace c) &&
    !domain.isEmpty && domain.all (fun c => !isJsWhitespace c && c != '@') &&
    (match domain with
     | [] => false
     | _ :: rest => rest.dropLast.contains '.')
  | _ => false

def matchesEmail (s : String) : Bool :=
  matchesEmailChars s.data

/-- The part of the URI regex after the scheme separator:
`[^\s/$.?#].[^\s]*$` — one character outside the class, one arbitrary
non-line-terminator character, then non-whitespace until the end. -/
def matchesUriTail : List Char → Bool
  | c1 :: c2 :: rest =>
    !isJsWhitespace c1 && c1 != '/' && c1 != '$' && c1 != '.' && c1 != '?' && c1 != '#' &&
    !(c2 == '\n' || c2 == '\r' || c2.val == 0x2028 || c2.val == 0x2029) &&
    rest.all (fun c => !isJsWhitespace c)
  | _ => false

/-- The anchored regex `^(https?|ftp):\/\/[^\s/$.?#].[^\s]*$` of the URI
check. -/
def matchesUriChars : List Char → Bool
  | 'h' :: 't' :: 't' :: 'p' :: rest =>
    (match rest with
     | 's' :: ':' :: '/' :: '/' :: r => matchesUriTail r
     | ':' :: '/' :: '/' :: r => matchesUriTail r
     | _ => false)
  | 'f' :: 't' :: 'p' :: ':' :: '/' :: '/' :: r => matchesUriTail r
  | _ => false

def matchesUri (s : String) : Bool :=
  matchesUriChars s.data

/-- Hexadecimal digit of the case-insensitive class `[0-9a-f]`. -/
def isHexDigitCi (c : Char) : Bool :=
  c.isDigit || ('a' ≤ c && c ≤ 'f') || ('A' ≤ c && c ≤ 'F')

/-- The anchored case-insensitive regex
`^[0-9a-f]{8}-[0-9a-f]{4}-[1-5][0-9a-f]{3}-[89ab][0-9a-f]{3}-[0-9a-f]{12}$`
of the UUID check. -/
def matchesUuidChars (l : List Char) : Bool :=
  match l.splitOn '-' with
  | [a, b, c, d, e] =>
    a.length == 8 && b.length == 4 && c.length == 4 && d.length == 4 && e.length == 12 &&
    a.all isHexDigitCi && b.all isHexDigitCi &&
    (match c with
     | v :: rest => ('1' ≤ v && v ≤ '5') && rest.all isHexDigitCi
     | [] => false) &&
    (match d with
     | v :: rest =>
       (v == '8' || v == '9' || v == 'a' || v == 'b' || v == 'A' || v == 'B') &&
       rest.all isHexDigitCi
     | [] => false) &&
    e.all isHexDigitCi
  | _ => false

def matchesUuid (s : String) : Bool :=
  matchesUuidChars s.data

/-- Options of `part_003`: `detectFormat?`, `schemaVersion?`, `depth?`.
`none` in a field models an absent (`undefined`) option; for `depth` the
source immediately collapses `undefined` and `null` to `null` (unlimited) via
`options.depth ?? null`, so `none` covers both.  `depth` is an `Int` because
the TS type is `number`. -/
structure JsonSchemaOptions where
  detectFormat : Option Bool := none
  schemaVersion : Option SchemaVersion := none
  depth : Option Int := none
deriving DecidableEq

/-- The `depthReached` flag of `objectToSchema`:
`maxDepth !== null && currentDepth >= maxDepth`. -/
def depthReachedAt (options : JsonSchemaOptions) (currentDepth : Nat) : Bool :=
  match options.depth with
  | none => false
  | some maxDepth => (currentDepth : Int) ≥ maxDepth

/-- The JS `typeof` of a value: `"boolean"`, `"number"`, `"string"`, the
stored name for an `other` host value, and `"object"` for null, arrays and
objects. -/
def typeofName : Json → String
  | .bool _ => "boolean"
  | .num _ _ => "number"
  | .str _ => "string"
  | .other t => t
  | _ => "object"

/-- First-occurrence deduplication: the insertion-order key semantics of a JS
`Map`/`Set` filled by a left-to-right loop (`map.set(key, value)` keeps the
first position of a key; by injectivity of `JSON.stringify` on `Fragment`
the later value overwrites are the identity). -/
def dedupFirst {α : Type} [DecidableEq α] (xs : List α) : List α :=
  xs.foldl (fun acc s => if s ∈ acc then acc else acc ++ [s]) []

/-- `deduplicateSchemas` (identical in `src/src/index.ts` and
`src/unnamed/part_003`): unique fragments by their `JSON.stringify` key, in
first-seen order. -/
def deduplicateSchemas (schemas : List Fragment) : List Fragment :=
  dedupFirst schemas

/-- The grouping key `schema.type` used by `generateArraySchema`; a JS object
key coerces a missing attribute to the string `"undefined"`. -/
def typeKey (schema : Fragment) : String :=
  (Fragment.type schema).getD "undefined"

/-- `Object.keys(schema.properties)` when `properties` is present, `[]`
otherwise (the source guards each access with `if (schema.properties)`). -/
def propKeys (schema : Fragment) : List String :=
  (Fragment.properties schema).getD [] |>.map Prod.fst

/-- `schema.properties && schema.properties[prop]`: the sub-fragment stored
under `prop`, when any. -/
def lookupProp (schema : Fragment) (prop : String) : Option Fragment :=
  ((Fragment.properties schema).getD []).lookup prop

/-- `Array.isArray(schema.required) && schema.required.includes(prop)`. -/
def requiredHasProp (schema : Fragment) (prop : String) : Bool :=
  match Fragment.required schema with
  | some r => prop ∈ r
  | none => false

/-- The per-property collection loop of `mergeObjectSchemas`: the sub-fragment
for `prop` from every input schema that has it, in input order
(`propSchemas`). -/
def propSchemasFor (schemas : List Fragment) (prop : String) : List Fragment :=
  schemas.filterMap (fun s => lookupProp s prop)

/-- `mergeObjectSchemas` (identical in `src/src/index.ts` and
`src/unnamed/part_003`).  `allProperties` is the first-seen-order union of
property names; a property's merged schema is the shared fragment when all
collected sub-fragments serialize equally and a `oneOf` of their
deduplication otherwise; a property ends up required when some input schema
containing it lists it in `required` (the `requiredProperties.add` call) and
it is present in every input schema (otherwise the
`requiredProperties.delete` call removes it); `required` is attached only
when non-empty. -/
def mergeObjectSchemas (schemas : List Fragment) : Fragment :=
  let totalSchemas := schemas.length
  let allProperties := dedupFirst (schemas.flatMap propKeys)
  let mergedProperties := allProperties.filterMap (fun prop =>
    match propSchemasFor schemas prop with
    | [] => none
    | first :: rest =>
      some (prop,
        if rest.all (fun s => s == first) then first
        else Fragment.mk none none none none none
          (some (deduplicateSchemas (first :: rest)))))
  let requiredProperties := allProperties.filter (fun prop =>
    (propSchemasFor schemas prop).length == totalSchemas &&
    schemas.any (fun s => (lookupProp s prop).isSome && requiredHasProp s prop))
  Fragment.mk (some "object") none (some mergedProperties)
    (if requiredProperties.length > 0 then some requiredProperties else none)
    none none

/-- `generateStringSchema` of `part_003`: bare string fragment when
`detectFormat === false`, else the first matching format of
date-time, email, uri, uuid, else bare. -/
def generateStringSchema (str : String) (options : JsonSchemaOptions) : Fragment :=
  if options.detectFormat == some false then Fragment.typeOnly "string"
  else if matchesDateTime str then
    Fragment.mk (some "string") (some "date-time") none none none none
  else if matchesEmail str then
    Fragment.mk (some "string") (some "email") none none none none
  else if matchesUri str then
    Fragment.mk (some "string") (some "uri") none none none none
  else if matchesUuid str then
    Fragment.mk (some "string") (some "uuid") none none none none
  else Fragment.typeOnly "string"

/-- `generatePrimitiveSchema` of `part_003`: strings go to the string schema,
numbers split on `Number.isInteger`, everything else gets `typeof` as its
`type` (booleans give `"boolean"`, host values their own `typeof` name). -/
def generatePrimitiveSchema (value : Json) (options : JsonSchemaOptions) : Fragment :=
  match value with
  | .str s => generateStringSchema s options
  | .num _ isInteger =>
    if isInteger then Fragment.typeOnly "integer" else Fragment.typeOnly "number"
  | v => Fragment.typeOnly (typeofName v)

mutual

/-- `objectToSchema` of `part_003`: dispatch on the runtime shape — null,
array, object, then primitives — computing `depthReached` from
`options.depth ?? null` and `currentDepth`. -/
def objectToSchema (value : Json) (options : JsonSchemaOptions)
    (currentDepth : Nat) : Fragment :=
  match value with
  | .null => Fragment.typeOnly "null"
  | .arr elements =>
    generateArraySchema elements options currentDepth
      (depthReachedAt options currentDepth)
  | .obj fields =>
    generateObjectSchema fields options currentDepth
      (depthReachedAt options currentDepth)
  | v => generatePrimitiveSchema v options

/-- `generateArraySchema` of `part_003`: `{type:"array"}` at the depth bound,
`{type:"array", items:{}}` for an empty array; otherwise the element
fragments are grouped by their `type` key — a single non-object type gives
`items = {type}`, a single object type merges the group, several types give
`items = {oneOf: deduplicated element fragments}`. -/
def generateArraySchema (array : List Json) (options : JsonSchemaOptions)
    (currentDepth : Nat) (depthReached : Bool) : Fragment :=
  if depthReached then Fragment.mk (some "array") none none none none none
  else if array.isEmpty then
    Fragment.mk (some "array") none none none (some Fragment.empty) none
  else
    let itemSchemas := mapItemSchemas array options (currentDepth + 1)
    let distinctTypes := dedupFirst (itemSchemas.map typeKey)
    if distinctTypes.length == 1 then
      let singleType := distinctTypes.headD ""
      if singleType == "object" then
        Fragment.mk (some "array") none none none
          (some (mergeObjectSchemas
            (itemSchemas.filter (fun s => typeKey s == singleType)))) none
      else
        Fragment.mk (some "array") none none none
          (some (Fragment.typeOnly singleType)) none
    else
      Fragment.mk (some "array") none none none
        (some (Fragment.mk none none none none none
          (some (deduplicateSchemas itemSchemas)))) none

/-- The `array.map((item) => objectToSchema(item, options, nextDepth))` call
of `generateArraySchema`. -/
def mapItemSchemas (array : List Json) (options : JsonSchemaOptions)
    (nextDepth : Nat) : List Fragment :=
  match array with
  | [] => []
  | item :: rest =>
    objectToSchema item options nextDepth :: mapItemSchemas rest options nextDepth

/-- `generateObjectSchema` of `part_003`: `{type:"object"}` at the depth
bound; otherwise every own enumerable key is recursed into at `nextDepth`
and pushed onto `required`, which is attached only when non-empty. -/
def generateObjectSchema (fields : List (String × Json))
    (options : JsonSchemaOptions) (currentDepth : Nat)
    (depthReached : Bool) : Fragment :=
  if depthReached then Fragment.mk (some "object") none none none none none
  else
    let properties := mapPropertySchemas fields options (currentDepth + 1)
    let required := fields.map Prod.fst
    Fragment.mk (some "object") none (some properties)
      (if required.length > 0 then some required else none) none none

/-- The `for key in obj` loop body of `generateObjectSchema`: each own key is
paired with the schema of its value at `nextDepth`. -/
def mapPropertySchemas (fields : List (String × Json))
    (options : JsonSchemaOptions) (nextDepth : Nat) : List (String × Fragment) :=
  match fields with
  | [] => []
  | (key, v) :: rest =>
    (key, objectToSchema v options nextDepth) ::
      mapPropertySchemas rest options nextDepth

end

namespace V0

/-- Options of `src/src/index.ts`: only `detectFormat?` and `schemaVersion?`
(the older implementation has no depth option). -/
structure JsonSchemaOptions where
  detectFormat : Option Bool := none
  schemaVersion : Option SchemaVersion := none
deriving DecidableEq

/-- `generateStringSchema` of `src/src/index.ts`; its regex literals are
semantically identical to those of `part_003` (`[+\-]` is the class
`[+-]`), so the shared matchers are used. -/
def generateStringSchema (str : String) (options : JsonSchemaOptions) : Fragment :=
  if options.detectFormat == some false then Fragment.typeOnly "string"
  else if matchesDateTime str then
    Fragment.mk (some "string") (some "date-time") none none none none
  else if matchesEmail str then
    Fragment.mk (some "string") (some "email") none none none none
  else if matchesUri str then
    Fragment.mk (some "string") (some "uri") none none none none
  else if matchesUuid str then
    Fragment.mk (some "string") (some "uuid") none none none none
  else Fragment.typeOnly "string"

/-- `generatePrimitiveSchema` of `src/src/index.ts`. -/
def generatePrimitiveSchema (value : Json) (options : JsonSchemaOptions) : Fragment :=
  match value with
  | .str s => generateStringSchema s options
  | .num _ isInteger =>
    if isInteger then Fragment.typeOnly "integer" else Fragment.typeOnly "number"
  | v => Fragment.typeOnly (typeofName v)

mutual

/-- `generateJsonSchema` of `src/src/index.ts`: the depth-free recursive
driver. -/
def generateJsonSchema (value : Json) (options : JsonSchemaOptions) : Fragment :=
  match value with
  | .null => Fragment.typeOnly "null"
  | .arr elements => generateArraySchema elements options
  | .obj fields => generateObjectSchema fields options
  | v => generatePrimitiveSchema v options

/-- `generateArraySchema` of `src/src/index.ts`. -/
def generateArraySchema (array : List Json) (options : JsonSchemaOptions) : Fragment :=
  if array.isEmpty then
    Fragment.mk (some "array") none none none (some Fragment.empty) none
  else
    let itemSchemas := mapItemSchemas array options
    let distinctTypes := dedupFirst (itemSchemas.map typeKey)
    if distinctTypes.length == 1 then
      let singleType := distinctTypes.headD ""
      if singleType == "object" then
        Fragment.mk (some "array") none none none
          (some (mergeObjectSchemas
            (itemSchemas.filter (fun s => typeKey s == singleType)))) none
      else
        Fragment.mk (some "array") none none none
          (some (Fragment.typeOnly singleType)) none
    else
      Fragment.mk (some "array") none none none
        (some (Fragment.mk none none none none none
          (some (deduplicateSchemas itemSchemas)))) none

/-- The `array.map((item) => generateJsonSchema(item, options))` call of the
older `generateArraySchema`. -/
def mapItemSchemas (array : List Json) (options : JsonSchemaOptions) : List Fragment :=
  match array with
  | [] => []
  | item :: rest => generateJsonSchema item options :: mapItemSchemas rest options

/-- `generateObjectSchema` of `src/src/index.ts`. -/
def generateObjectSchema (fields : List (String × Json))
    (options : JsonSchemaOptions) : Fragment :=
  let properties := mapPropertySchemas fields options
  let required := fields.map Prod.fst
  Fragment.mk (some "object") none (some properties)
    (if required.length > 0 then some required else none) none none

/-- The `for key in obj` loop body of the older `generateObjectSchema`. -/
def mapPropertySchemas (fields : List (String × Json))
    (options : JsonSchemaOptions) : List (String × Fragment) :=
  match fields with
  | [] => []
  | (key, v) :: rest =>
    (key, generateJsonSchema v options) :: mapPropertySchemas rest options

end

end V0

/-- The root value returned by `jsonToSchema`: `{$schema: schemaUrl, ...schema}`.
The inferred fragment never carries a `$schema` attribute, so the spread is
faithfully a pair of the dialect header and the fragment. -/
structure RootSchema where
  schemaUrl : String
  fragment : Fragment
deriving DecidableEq

/-- The `switch (options.schemaVersion)` of `jsonToSchema` in both files:
`"2019-09"` and `"2020-12"` select their draft URLs, anything else (including
an absent option) falls to the draft-07 URL. -/
def schemaUrlForVersion : Option SchemaVersion → String
  | some .v2019_09 => "https://json-schema.org/draft/2019-09/schema"
  | some .v2020_12 => "https://json-schema.org/draft/2020-12/schema"
  | _ => "http://json-schema.org/draft-07/schema#"

/-- `jsonToSchema` of `part_003`.  `JSON.parse` is the host runtime's parser,
modelled by the `parseResult` argument (`Except.error m` is a parse failure
whose `Error.message` is `m`).  The `try` block wraps the parse, the
inference and the envelope, but inference and envelope construction are
total, so the `catch` rethrow `Invalid JSON: ${message}` fires exactly on
parse failures. -/
def jsonToSchema (parseResult : Except String Json)
    (options : JsonSchemaOptions) : Except String RootSchema :=
  match parseResult with
  | .error message => .error ("Invalid JSON: " ++ message)
  | .ok json =>
    .ok ⟨schemaUrlForVersion options.schemaVersion, objectToSchema json options 0⟩

namespace V0

/-- `jsonToSchema` of `src/src/index.ts` (same envelope, older driver). -/
def jsonToSchema (parseResult : Except String Json)
    (options : JsonSchemaOptions) : Except String RootSchema :=
  match parseResult with
  | .error message => .error ("Invalid JSON: " ++ message)
  | .ok json =>
    .ok ⟨schemaUrlForVersion options.schemaVersion, generateJsonSchema json options⟩

end V0

mutual

/-- Modelled from the spec: the implementation of the `optimizeForLLM` option
is absent from `src/` (the README and the example script call it, and the
spec describes it as a post-inference pass of the Envelope Builder that
"strips all `required` attributes from the final fragment tree").  This is
that pass: every `required` attribute in the tree is dropped and every other
attribute is kept. -/
def stripRequired : Fragment → Fragment
  | .mk t f p _ i o =>
    .mk t f (stripRequiredOptProps p) none (stripRequiredOptItems i)
      (stripRequiredOptOneOf o)
termination_by structural f => f

def stripRequiredOptProps :
    Option (List (String × Fragment)) → Option (List (String × Fragment))
  | none => none
  | some ps => some (stripRequiredProps ps)
termination_by structural p => p

def stripRequiredProps : List (String × Fragment) → List (String × Fragment)
  | [] => []
  | (k, v) :: rest => (k, stripRequired v) :: stripRequiredProps rest
termination_by structural ps => ps

def stripRequiredOptItems : Option Fragment → Option Fragment
  | none => none
  | some f => some (stripRequired f)
termination_by structural i => i

def stripRequiredOptOneOf : Option (List Fragment) → Option (List Fragment)
  | none => none
  | some l => some (stripRequiredList l)
termination_by structural o => o

def stripRequiredList : List Fragment → List Fragment
  | [] => []
  | f :: rest => stripRequired f :: stripRequiredList rest
termination_by structural l => l

end

/-- Modelled from the spec: `jsonToSchema` as released with the
`optimizeForLLM` flag — the envelope of `part_003` followed, when the flag is
true, by the `required`-stripping pass on the final fragment tree. -/
def jsonToSchemaWithOptimize (parseResult : Except String Json)
    (options : JsonSchemaOptions) (optimizeForLLM : Bool) :
    Except String RootSchema :=
  (jsonToSchema parseResult options).map (fun root =>
    if optimizeForLLM then ⟨root.schemaUrl, stripRequired root.fragment⟩
    else root)

/-- Pairwise structural distinctness of a fragment list ("no two elements
serialize identically"). -/
def fragListDistinct : List Fragment → Bool
  | [] => true
  | x :: xs => !(xs.contains x) && fragListDistinct xs

mutual

/-- The spec's `oneOf` invariant, checked on a whole fragment tree: every
`oneOf` attribute anywhere in the tree holds at least two pairwise
structurally-distinct fragments. -/
def goodFrag : Fragment → Bool
  | .mk _ _ p _ i o =>
    goodFragOptProps p && goodFragOptItems i && goodFragOptOneOf o
termination_by structural f => f

def goodFragOptProps : Option (List (String × Fragment)) → Bool
  | none => true
  | some ps => goodFragProps ps
termination_by structural p => p

def goodFragProps : List (String × Fragment) → Bool
  | [] => true
  | (_, v) :: rest => goodFrag v && goodFragProps rest
termination_by structural ps => ps

def goodFragOptItems : Option Fragment → Bool
  | none => true
  | some f => goodFrag f
termination_by structural i => i

def goodFragOptOneOf : Option (List Fragment) → Bool
  | none => true
  | some l => decide (2 ≤ l.length) && fragListDistinct l && goodFragList l
termination_by structural o => o

def goodFragList : List Fragment → Bool
  | [] => true
  | f :: rest => goodFrag f && goodFragList rest
termination_by structural l => l

end

mutual

/-- No `required` attribute anywhere in the fragment tree. -/
def noRequiredAnywhere : Fragment → Bool
  | .mk _ _ p r i o =>
    r == none && noRequiredOptProps p && noRequiredOptItems i && noRequiredOptOneOf o
termination_by structural f => f

def noRequiredOptProps : Option (List (String × Fragment)) → Bool
  | none => true
  | some ps => noRequiredProps ps
termination_by structural p => p

def noRequiredProps : List (String × Fragment) → Bool
  | [] => true
  | (_, v) :: rest => noRequiredAnywhere v && noRequiredProps rest
termination_by structural ps => ps

def noRequiredOptItems : Option Fragment → Bool
  | none => true
  | some f => noRequiredAnywhere f
termination_by structural i => i

def noRequiredOptOneOf : Option (List Fragment) → Bool
  | none => true
  | some l => noRequiredList l
termination_by structural o => o

def noRequiredList : List Fragment → Bool
  | [] => true
  | f :: rest => noRequiredAnywhere f && noRequiredList rest
termination_by structural l => l

end

mutual

/-- Equality of two fragment trees on every attribute except `required`,
recursively: same `type`, `format`, `items`/`oneOf` shape, same property
names in the same order, at every nesting level. -/
def sameExceptRequired : Fragment → Fragment → Bool
  | .mk t1 f1 p1 _ i1 o1, .mk t2 f2 p2 _ i2 o2 =>
    t1 == t2 && f1 == f2 && sameExceptRequiredOptProps p1 p2 &&
    sameExceptRequiredOptItems i1 i2 && sameExceptRequiredOptOneOf o1 o2
termination_by structural a _ => a

def sameExceptRequiredOptProps :
    Option (List (String × Fragment)) → Option (List (String × Fragment)) → Bool
  | none, none => true
  | some ps1, some ps2 => sameExceptRequiredProps ps1 ps2
  | _, _ => false
termination_by structural a _ => a

def sameExceptRequiredProps :
    List (String × Fragment) → List (String × Fragment) → Bool
  | [], [] => true
  | (k1, v1) :: r1, (k2, v2) :: r2 =>
    k1 == k2 && sameExceptRequired v1 v2 && sameExceptRequiredProps r1 r2
  | _, _ => false
termination_by structural a _ => a

def sameExceptRequiredOptItems : Option Fragment → Option Fragment → Bool
  | none, none => true
  | some a, some b => sameExceptRequired a b
  | _, _ => false
termination_by structural a _ => a

def sameExceptRequiredOptOneOf :
    Option (List Fragment) → Option (List Fragment) → Bool
  | none, none => true
  | some l1, some l2 => sameExceptRequiredList l1 l2
  | _, _ => false
termination_by structural a _ => a

def sameExceptRequiredList : List Fragment → List Fragment → Bool
  | [], [] => true
  | a :: r1, b :: r2 => sameExceptRequired a b && sameExceptRequiredList r1 r2
  | _, _ => false
termination_by structural a _ => a

end

/-- Induction over `Json` with hypotheses for the elements of nested lists. -/
def Json.indOn {P : Json → Prop}
    (hnull : P .null)
    (hbool : ∀ b, P (.bool b))
    (hnum : ∀ p i, P (.num p i))
    (hstr : ∀ s, P (.str s))
    (harr : ∀ elements, (∀ x ∈ elements, P x) → P (.arr elements))
    (hobj : ∀ fields, (∀ kv ∈ fields, P kv.2) → P (.obj fields))
    (hother : ∀ t, P (.other t)) : ∀ v, P v
  | .null => hnull
  | .bool b => hbool b
  | .num p i => hnum p i
  | .str s => hstr s
  | .arr elements => harr elements (fun x _ =>
      Json.indOn hnull hbool hnum hstr harr hobj hother x)
  | .obj fields => hobj fields (fun kv _ =>
      Json.indOn hnull hbool hnum hstr harr hobj hother kv.2)
  | .other t => hother t
termination_by v => sizeOf v
decreasing_by
  · rename_i hx
    have h1 := List.sizeOf_lt_of_mem hx
    simp only [Json.arr.sizeOf_spec]
    omega
  · rename_i kv hkv
    have h1 := List.sizeOf_lt_of_mem hkv
    obtain ⟨k, v⟩ := kv
    simp only [Json.obj.sizeOf_spec, Prod.mk.sizeOf_spec] at h1 ⊢
    omega

/-- Induction over `Fragment` with hypotheses for the fragments nested in
`properties`, `items` and `oneOf`. -/
def Fragment.indOn {P : Fragment → Prop}
    (h : ∀ t f p r i o,
      (∀ ps, p = some ps → ∀ kv ∈ ps, P kv.2) →
      (∀ x, i = some x → P x) →
      (∀ l, o = some l → ∀ x ∈ l, P x) →
      P (.mk t f p r i o)) : ∀ fr, P fr
  | .mk t f p r i o =>
    h t f p r i o
      (fun _ hps kv _ => Fragment.indOn h kv.2)
      (fun x _ => Fragment.indOn h x)
      (fun _ hl x _ => Fragment.indOn h x)
termination_by fr => sizeOf fr
decreasing_by
  · rename_i hkv
    have h1 := List.sizeOf_lt_of_mem hkv
    obtain ⟨k, v⟩ := kv
    subst hps
    simp only [Fragment.mk.sizeOf_spec, Option.some.sizeOf_spec,
      Prod.mk.sizeOf_spec] at h1 ⊢
    omega
  · rename_i hx
    subst hx
    simp only [Fragment.mk.sizeOf_spec, Option.some.sizeOf_spec]
    omega
  · rename_i hx
    have h1 := List.sizeOf_lt_of_mem hx
    subst hl
    simp only [Fragment.mk.sizeOf_spec, Option.some.sizeOf_spec] at h1 ⊢
    omega

section ListLemmas

variable {α : Type} [DecidableEq α]

theorem dedupSeen_mem (xs : List α) :
    ∀ (acc : List α) (a : α),
      (a ∈ xs.foldl (fun acc s => if s ∈ acc then acc else acc ++ [s]) acc ↔
        a ∈ acc ∨ a ∈ xs) := by
  induction xs with
  | nil => intro acc a; simp
  | cons x xs ih =>
    intro acc a
    simp only [List.foldl_cons]
    by_cases hx : x ∈ acc
    · rw [if_pos hx, ih]
      simp only [List.mem_cons]
      constructor
      · rintro (h | h)
        · exact Or.inl h
        · exact Or.inr (Or.inr h)
      · rintro (h | h | h)
        · exact Or.inl h
        · exact Or.inl (h ▸ hx)
        · exact Or.inr h
    · rw [if_neg hx, ih]
      simp only [List.mem_append, List.mem_singleton, List.mem_cons]
      tauto

theorem dedupSeen_nodup (xs : List α) :
    ∀ acc : List α, acc.Nodup →
      (xs.foldl (fun acc s => if s ∈ acc then acc else acc ++ [s]) acc).Nodup := by
  induction xs with
  | nil => intro acc h; exact h
  | cons x xs ih =>
    intro acc h
    simp only [List.foldl_cons]
    by_cases hx : x ∈ acc
    · rw [if_pos hx]; exact ih acc h
    · rw [if_neg hx]
      refine ih (acc ++ [x]) ?_
      rw [List.nodup_append]
      refine ⟨h, List.nodup_singleton x, ?_⟩
      intro a ha hax
      rw [List.mem_singleton] at hax
      exact hx (hax ▸ ha)

theorem dedupSeen_of_disjoint (xs : List α) :
    ∀ acc : List α, xs.Nodup → (∀ x ∈ xs, x ∉ acc) →
      xs.foldl (fun acc s => if s ∈ acc then acc else acc ++ [s]) acc = acc ++ xs := by
  induction xs with
  | nil => intro acc _ _; simp
  | cons x xs ih =>
    intro acc hnd hdis
    have hx : x ∉ acc := hdis x (List.mem_cons_self x xs)
    rw [List.nodup_cons] at hnd
    simp only [List.foldl_cons, if_neg hx]
    rw [ih (acc ++ [x]) hnd.2 ?_]
    · simp
    · intro y hy
      rw [List.mem_append, List.mem_singleton]
      rintro (h | h)
      · exact hdis y (List.mem_cons_of_mem x hy) h
      · exact hnd.1 (h ▸ hy)

theorem mem_dedupFirst {xs : List α} {a : α} : a ∈ dedupFirst xs ↔ a ∈ xs := by
  unfold dedupFirst
  rw [dedupSeen_mem]
  simp

theorem nodup_dedupFirst (xs : List α) : (dedupFirst xs).Nodup :=
  dedupSeen_nodup xs [] List.nodup_nil

theorem dedupFirst_of_nodup {xs : List α} (h : xs.Nodup) : dedupFirst xs = xs := by
  unfold dedupFirst
  rw [dedupSeen_of_disjoint xs [] h (fun x _ hx => (List.not_mem_nil x) hx)]
  simp

theorem dedupFirst_constant {t : α} :
    ∀ {l : List α}, l ≠ [] → (∀ x ∈ l, x = t) → dedupFirst l = [t] := by
  have aux : ∀ (l acc : List α), (∀ x ∈ l, x ∈ acc) →
      l.foldl (fun acc s => if s ∈ acc then acc else acc ++ [s]) acc = acc := by
    intro l
    induction l with
    | nil => intro acc _; rfl
    | cons x xs ih =>
      intro acc h
      simp only [List.foldl_cons, if_pos (h x (List.mem_cons_self x xs))]
      exact ih acc (fun y hy => h y (List.mem_cons_of_mem x hy))
  intro l hne hall
  match l, hne with
  | x :: xs, _ =>
    have hx : x = t := hall x (List.mem_cons_self x xs)
    unfold dedupFirst
    simp only [List.foldl_cons, List.not_mem_nil, if_neg (List.not_mem_nil x),
      List.nil_append]
    subst hx
    exact aux xs [x] (fun y hy => by
      rw [hall y (List.mem_cons_of_mem x hy), List.mem_singleton])

theorem two_mem_length_ge_two {l : List α} {a b : α}
    (ha : a ∈ l) (hb : b ∈ l) (hab : a ≠ b) : 2 ≤ l.length := by
  match l with
  | [] => exact absurd ha (List.not_mem_nil a)
  | [x] =>
    rw [List.mem_singleton] at ha hb
    exact absurd (ha.trans hb.symm) hab
  | _ :: _ :: _ => simp only [List.length_cons]; omega

theorem nodup_two_exists {l : List α} (hnd : l.Nodup) (hl : 2 ≤ l.length) :
    ∃ a ∈ l, ∃ b ∈ l, a ≠ b := by
  match l, hl with
  | a :: b :: rest, _ =>
    rw [List.nodup_cons] at hnd
    refine ⟨a, List.mem_cons_self _ _, b,
      List.mem_cons_of_mem a (List.mem_cons_self _ _), ?_⟩
    intro hab
    exact hnd.1 (hab ▸ List.mem_cons_self b rest)

theorem length_filterMap_eq_iff {β : Type} {f : α → Option β} :
    ∀ {l : List α}, ((l.filterMap f).length = l.length ↔ ∀ x ∈ l, (f x).isSome) := by
  intro l
  induction l with
  | nil => simp
  | cons x xs ih =>
    rw [List.filterMap_cons]
    cases hfx : f x with
    | none =>
      simp only [List.length_cons]
      constructor
      · intro h
        have := List.length_filterMap_le f xs
        omega
      · intro h
        have := h x (List.mem_cons_self x xs)
        rw [hfx] at this
        exact absurd this (by simp)
    | some b =>
      simp only [List.length_cons, Nat.add_right_cancel_iff, ih]
      constructor
      · intro h y hy
        rw [List.mem_cons] at hy
        rcases hy with hy | hy
        · rw [hy, hfx]; rfl
        · exact h y hy
      · intro h y hy
        exact h y (List.mem_cons_of_mem x hy)

theorem lookup_some_mem {β : Type} :
    ∀ {l : List (α × β)} {k : α} {v : β}, l.lookup k = some v → (k, v) ∈ l := by
  intro l
  induction l with
  | nil => intro k v h; exact absurd h (by simp [List.lookup])
  | cons hd tl ih =>
    intro k v h
    obtain ⟨k0, v0⟩ := hd
    by_cases hk : k = k0
    · subst hk
      simp only [List.lookup_cons, beq_self_eq_true] at h
      cases h
      exact List.mem_cons_self _ _
    · have hbeq : (k == k0) = false := by simp [hk]
      simp only [List.lookup_cons, hbeq] at h
      exact List.mem_cons_of_mem _ (ih h)

theorem lookup_isSome_iff {β : Type} :
    ∀ {l : List (α × β)} {k : α}, ((l.lookup k).isSome ↔ k ∈ l.map Prod.fst) := by
  intro l
  induction l with
  | nil => intro k; simp [List.lookup]
  | cons hd tl ih =>
    intro k
    obtain ⟨k0, v0⟩ := hd
    by_cases hk : k = k0
    · subst hk; simp [List.lookup_cons]
    · have hbeq : (k == k0) = false := by simp [hk]
      simp only [List.lookup_cons, hbeq, List.map_cons, List.mem_cons, ih]
      constructor
      · intro h; exact Or.inr h
      · rintro (h | h)
        · exact absurd h hk
        · exact h

end ListLemmas

/-- C8: `deduplicateSchemas` is idempotent — deduplicating an already
deduplicated fragment list changes nothing. -/
theorem deduplicateSchemas_idempotent (xs : List Fragment) :
    deduplicateSchemas (deduplicateSchemas xs) = deduplicateSchemas xs := by
  unfold deduplicateSchemas
  exact dedupFirst_of_nodup (nodup_dedupFirst xs)

/-- C5: `jsonToSchema` raises exactly on parse failure: a failed parse with
message `m` yields the single error `Invalid JSON: m`, and every
successfully parsed value yields a schema (the envelope and the inference
are total), so no other error kind exists. -/
theorem jsonToSchema_error_exactly_on_parse_failure :
    (∀ (m : String) (options : JsonSchemaOptions),
      jsonToSchema (.error m) options = .error ("Invalid JSON: " ++ m)) ∧
    (∀ (j : Json) (options : JsonSchemaOptions),
      jsonToSchema (.ok j) options =
        .ok ⟨schemaUrlForVersion options.schemaVersion, objectToSchema j options 0⟩) :=
  ⟨fun _ _ => rfl, fun _ _ => rfl⟩

theorem mapItemSchemas_congr_options (o1 o2 : JsonSchemaOptions) :
    ∀ (l : List Json) (d : Nat),
      (∀ x ∈ l, objectToSchema x o1 d = objectToSchema x o2 d) →
      mapItemSchemas l o1 d = mapItemSchemas l o2 d := by
  intro l
  induction l with
  | nil => intro d _; simp only [mapItemSchemas]
  | cons x xs ih =>
    intro d h
    simp only [mapItemSchemas]
    rw [h x (List.mem_cons_self x xs),
      ih d (fun y hy => h y (List.mem_cons_of_mem x hy))]

theorem mapPropertySchemas_congr_options (o1 o2 : JsonSchemaOptions) :
    ∀ (l : List (String × Json)) (d : Nat),
      (∀ kv ∈ l, objectToSchema kv.2 o1 d = objectToSchema kv.2 o2 d) →
      mapPropertySchemas l o1 d = mapPropertySchemas l o2 d := by
  intro l
  induction l with
  | nil => intro d _; simp only [mapPropertySchemas]
  | cons kv xs ih =>
    intro d h
    obtain ⟨k, v⟩ := kv
    simp only [mapPropertySchemas]
    rw [h (k, v) (List.mem_cons_self _ xs),
      ih d (fun y hy => h y (List.mem_cons_of_mem _ hy))]

theorem objectToSchema_ignores_schemaVersion (df : Option Bool) (dep : Option Int)
    (sv1 sv2 : Option SchemaVersion) :
    ∀ (v : Json) (d : Nat),
      objectToSchema v ⟨df, sv1, dep⟩ d = objectToSchema v ⟨df, sv2, dep⟩ d := by
  intro v
  induction v using Json.indOn with
  | hnull => intro d; simp only [objectToSchema]
  | hbool b => intro d; simp only [objectToSchema, generatePrimitiveSchema]
  | hnum p i => intro d; simp only [objectToSchema, generatePrimitiveSchema]
  | hstr s =>
    intro d
    simp only [objectToSchema, generatePrimitiveSchema, generateStringSchema]
  | hother t => intro d; simp only [objectToSchema, generatePrimitiveSchema]
  | harr elements ih =>
    intro d
    have hmap := mapItemSchemas_congr_options _ _ elements (d + 1)
      (fun x hx => ih x hx (d + 1))
    simp only [objectToSchema, generateArraySchema, depthReachedAt]
    rw [hmap]
  | hobj fields ih =>
    intro d
    have hmap := mapPropertySchemas_congr_options _ _ fields (d + 1)
      (fun kv hkv => ih kv hkv (d + 1))
    simp only [objectToSchema, generateObjectSchema, depthReachedAt]
    rw [hmap]

/-- C9: for any parse outcome, the schemas produced under two
`schemaVersion` settings (with the same `detectFormat` and `depth`) carry the
same fragment — only the `$schema` header attribute can differ. -/
theorem jsonToSchema_schemaVersion_frame (parseResult : Except String Json)
    (df : Option Bool) (dep : Option Int) (sv1 sv2 : Option SchemaVersion) :
    Except.map RootSchema.fragment (jsonToSchema parseResult ⟨df, sv1, dep⟩) =
      Except.map RootSchema.fragment (jsonToSchema parseResult ⟨df, sv2, dep⟩) := by
  cases parseResult with
  | error m => rfl
  | ok j =>
    simp only [jsonToSchema, Except.map]
    rw [objectToSchema_ignores_schemaVersion df dep sv1 sv2 j 0]

/-- C2: depth cut-off for objects.  At any node where the depth bound is
reached the inference returns the bare `{type:"object"}` with no
`properties` and no `required`; at any object node below the bound it keeps
the full `properties` (each value inferred at depth + 1) and the full
`required` list of own keys; and the spec's concrete example
`infer({"level1":{"level2":{"value":"x"}}}, {depth:1})` evaluates to
`{type:"object", properties:{level1:{type:"object"}}, required:["level1"]}`. -/
theorem objectToSchema_depth_cutoff :
    (∀ (fields : List (String × Json)) (options : JsonSchemaOptions) (d : Nat),
      depthReachedAt options d = true →
      objectToSchema (.obj fields) options d =
        Fragment.mk (some "object") none none none none none) ∧
    (∀ (fields : List (String × Json)) (options : JsonSchemaOptions) (d : Nat),
      depthReachedAt options d = false →
      objectToSchema (.obj fields) options d =
        Fragment.mk (some "object") none
          (some (mapPropertySchemas fields options (d + 1)))
          (if fields.length > 0 then some (fields.map Prod.fst) else none)
          none none) ∧
    (objectToSchema
        (.obj [("level1", .obj [("level2", .obj [("value", .str "x")])])])
        { depth := some 1 } 0 =
      Fragment.mk (some "object") none
        (some [("level1", Fragment.mk (some "object") none none none none none)])
        (some ["level1"]) none none) := by
  refine ⟨?_, ?_, ?_⟩
  · intro fields options d h
    simp only [objectToSchema, generateObjectSchema, h, if_pos]
  · intro fields options d h
    simp only [objectToSchema, generateObjectSchema, h, Bool.false_eq_true,
      List.length_map]
    simp
  · simp [objectToSchema, generateObjectSchema, mapPropertySchemas, depthReachedAt]

/-- C2 witness: the cut-off clause at an object of one field with the bound
already reached, and the full-detail clause for the same object with no
bound. -/
theorem objectToSchema_depth_cutoff_witness :
    (objectToSchema (.obj [("a", Json.null)]) { depth := some 0 } 0 =
      Fragment.mk (some "object") none none none none none) ∧
    (objectToSchema (.obj [("a", Json.null)]) {} 0 =
      Fragment.mk (some "object") none
        (some (mapPropertySchemas [("a", Json.null)] {} 1))
        (if [("a", Json.null)].length > 0 then some ["a"] else none)
        none none) :=
  ⟨objectToSchema_depth_cutoff.1 _ _ _ (by decide),
   objectToSchema_depth_cutoff.2.1 _ _ _ (by decide)⟩

/-- C3: below the depth bound, a non-empty array whose element fragments all
carry one common top-level type other than `"object"` gets exactly
`items = {type: <that type>}` — the `format` and any sub-structure of the
individual element fragments are discarded. -/
theorem generateArraySchema_single_primitive_type
    (elements : List Json) (options : JsonSchemaOptions) (d : Nat) (t : String)
    (hdepth : depthReachedAt options d = false)
    (hne : elements ≠ [])
    (htype : ∀ f ∈ mapItemSchemas elements options (d + 1), typeKey f = t)
    (hobj : t ≠ "object") :
    objectToSchema (.arr elements) options d =
      Fragment.mk (some "array") none none none (some (Fragment.typeOnly t)) none := by
  have hmapne : mapItemSchemas elements options (d + 1) ≠ [] := by
    match elements, hne with
    | x :: xs, _ => simp [mapItemSchemas]
  have htypes : dedupFirst ((mapItemSchemas elements options (d + 1)).map typeKey) = [t] := by
    refine dedupFirst_constant ?_ ?_
    · simpa using hmapne
    · intro x hx
      rw [List.mem_map] at hx
      obtain ⟨f, hf, hfx⟩ := hx
      rw [← hfx]
      exact htype f hf
  have hempty : elements.isEmpty = false := by
    match elements, hne with
    | x :: xs, _ => rfl
  simp only [objectToSchema, generateArraySchema, hdepth, Bool.false_eq_true,
    if_neg, hempty, htypes]
  simp [hobj]

/-- C3 witness: the array `["2021-01-01", "plain"]` (a date-time string and a
plain string) collapses to `items = {type:"string"}`. -/
theorem generateArraySchema_single_primitive_type_witness :
    objectToSchema (.arr [.str "2021-01-01", .str "plain"]) {} 0 =
      Fragment.mk (some "array") none none none
        (some (Fragment.typeOnly "string")) none := by
  have hmap : mapItemSchemas [.str "2021-01-01", .str "plain"] {} 1 =
      [Fragment.mk (some "string") (some "date-time") none none none none,
       Fragment.typeOnly "string"] := by
    simp only [mapItemSchemas, objectToSchema, generatePrimitiveSchema,
      generateStringSchema]
    decide
  refine generateArraySchema_single_primitive_type _ _ _ "string"
    (by decide) (List.cons_ne_nil _ _) ?_ (by decide)
  intro f hf
  rw [hmap] at hf
  rcases List.mem_cons.mp hf with hf | hf
  · rw [hf]; decide
  · rw [List.mem_singleton.mp hf]; decide

/-- C1 counterexample: merging two fragments that both contain property `a`,
where only the first marks it required, still marks `a` required in the
output — the claim's "required in every input fragment that contains it"
does not hold of the code, which requires it as soon as one containing
fragment does. -/
theorem mergeObjectSchemas_required_by_one_containing_fragment :
    ((lookupProp
        (Fragment.mk (some "object") none
          (some [("a", Fragment.typeOnly "string")]) none none none) "a").isSome ∧
      requiredHasProp
        (Fragment.mk (some "object") none
          (some [("a", Fragment.typeOnly "string")]) none none none) "a" = false) ∧
    requiredHasProp
      (mergeObjectSchemas
        [Fragment.mk (some "object") none
          (some [("a", Fragment.typeOnly "string")]) (some ["a"]) none none,
         Fragment.mk (some "object") none
          (some [("a", Fragment.typeOnly "string")]) none none none]) "a" = true := by
  decide

theorem requiredHasProp_attached (t f : Option String)
    (pr : Option (List (String × Fragment))) (i : Option Fragment)
    (o : Option (List Fragment)) (r : List String) (p : String) :
    (requiredHasProp
      (Fragment.mk t f pr (if r.length > 0 then some r else none) i o) p = true) ↔
      p ∈ r := by
  by_cases h : r.length > 0
  · rw [if_pos h]
    simp [requiredHasProp, Fragment.required]
  · rw [if_neg h]
    have hr : r = [] := List.eq_nil_of_length_eq_zero (by omega)
    subst hr
    simp [requiredHasProp, Fragment.required]

theorem lookupProp_isSome_iff {s : Fragment} {p : String} :
    (lookupProp s p).isSome ↔ p ∈ propKeys s := by
  unfold lookupProp propKeys
  exact lookup_isSome_iff

/-- C1 amended: a property is in the merged `required` set iff it is present
in the `properties` of every input fragment and at least one input fragment
containing it lists it in its `required`; in particular a property absent
from some input fragment's properties is never required. -/
theorem mergeObjectSchemas_required_iff (schemas : List Fragment) (p : String) :
    requiredHasProp (mergeObjectSchemas schemas) p = true ↔
      ((∀ s ∈ schemas, (lookupProp s p).isSome) ∧
        ∃ s ∈ schemas, (lookupProp s p).isSome ∧ requiredHasProp s p = true) := by
  have hcount : ((propSchemasFor schemas p).length = schemas.length ↔
      ∀ s ∈ schemas, (lookupProp s p).isSome) := by
    unfold propSchemasFor
    exact length_filterMap_eq_iff
  simp only [mergeObjectSchemas]
  rw [requiredHasProp_attached, List.mem_filter, mem_dedupFirst, List.mem_flatMap]
  simp only [Bool.and_eq_true, beq_iff_eq, List.any_eq_true]
  constructor
  · rintro ⟨⟨s, hs, hps⟩, hcnt, s2, hs2, hb⟩
    exact ⟨hcount.mp hcnt, s2, hs2, hb.1, hb.2⟩
  · rintro ⟨hall, s, hs, hsome, hreq⟩
    exact ⟨⟨s, hs, lookupProp_isSome_iff.mp hsome⟩, hcount.mpr hall, s, hs,
      hsome, hreq⟩

/-- C7 counterexample: a fragment whose `required` covers exactly its own
property names as a set, but in a different order than the property list, is
not a fixed point of the singleton merge — the merge rebuilds `required` in
property order. -/
theorem mergeObjectSchemas_singleton_reorders_required :
    ((Fragment.required
        (Fragment.mk (some "object") none
          (some [("a", Fragment.typeOnly "string"), ("b", Fragment.typeOnly "integer")])
          (some ["b", "a"]) none none)).getD [] ⊆
      propKeys
        (Fragment.mk (some "object") none
          (some [("a", Fragment.typeOnly "string"), ("b", Fragment.typeOnly "integer")])
          (some ["b", "a"]) none none) ∧
      propKeys
        (Fragment.mk (some "object") none
          (some [("a", Fragment.typeOnly "string"), ("b", Fragment.typeOnly "integer")])
          (some ["b", "a"]) none none) ⊆
        (Fragment.required
          (Fragment.mk (some "object") none
            (some [("a", Fragment.typeOnly "string"), ("b", Fragment.typeOnly "integer")])
            (some ["b", "a"]) none none)).getD []) ∧
    mergeObjectSchemas
        [Fragment.mk (some "object") none
          (some [("a", Fragment.typeOnly "string"), ("b", Fragment.typeOnly "integer")])
          (some ["b", "a"]) none none] ≠
      Fragment.mk (some "object") none
        (some [("a", Fragment.typeOnly "string"), ("b", Fragment.typeOnly "integer")])
        (some ["b", "a"]) none none := by
  decide

theorem assoc_rebuild (ps : List (String × Fragment))
    (hnd : (ps.map Prod.fst).Nodup) :
    (ps.map Prod.fst).filterMap
      (fun prop => (ps.lookup prop).map (fun v => (prop, v))) = ps := by
  induction ps with
  | nil => rfl
  | cons hd rest ih =>
    obtain ⟨k0, v0⟩ := hd
    rw [List.map_cons] at hnd ⊢
    rw [List.nodup_cons] at hnd
    have hk0 : List.lookup k0 ((k0, v0) :: rest) = some v0 := by
      simp [List.lookup_cons]
    rw [List.filterMap_cons, hk0]
    have hcong : (rest.map Prod.fst).filterMap
          (fun prop => (List.lookup prop ((k0, v0) :: rest)).map (fun v => (prop, v))) =
        (rest.map Prod.fst).filterMap
          (fun prop => (List.lookup prop rest).map (fun v => (prop, v))) := by
      refine List.filterMap_congr ?_
      intro x hx
      have hxne : (x == k0) = false := by
        simp only [beq_eq_false_iff_ne, ne_eq]
        intro he
        exact hnd.1 (he ▸ hx)
      rw [List.lookup_cons, hxne]
    rw [hcong, ih hnd.2]
    rfl

/-- C7 amended: the singleton merge is the identity on an object fragment
whose attributes are exactly `type:"object"`, `properties` (with pairwise
distinct keys and at least one entry) and `required` equal to the property
key list in property order. -/
theorem mergeObjectSchemas_singleton_identity
    (ps : List (String × Fragment)) (hnd : (ps.map Prod.fst).Nodup)
    (hne : ps ≠ []) :
    mergeObjectSchemas
        [Fragment.mk (some "object") none (some ps) (some (ps.map Prod.fst)) none none] =
      Fragment.mk (some "object") none (some ps) (some (ps.map Prod.fst)) none none := by
  have h2 : ∀ prop, propSchemasFor
      [Fragment.mk (some "object") none (some ps) (some (ps.map Prod.fst)) none none]
      prop = (ps.lookup prop).toList := by
    intro prop
    simp only [propSchemasFor, lookupProp, Fragment.properties, Option.getD_some,
      List.filterMap_cons, List.filterMap_nil]
    cases ps.lookup prop with
    | none => rfl
    | some v => rfl
  simp only [mergeObjectSchemas]
  have h1 : ([Fragment.mk (some "object") none (some ps) (some (ps.map Prod.fst))
      none none].flatMap propKeys) = ps.map Prod.fst := by
    simp [propKeys, Fragment.properties]
  rw [h1, dedupFirst_of_nodup hnd]
  have h3 : (ps.map Prod.fst).filterMap (fun prop =>
      match propSchemasFor
        [Fragment.mk (some "object") none (some ps) (some (ps.map Prod.fst)) none none]
        prop with
      | [] => none
      | first :: rest =>
        some (prop,
          if rest.all (fun s => s == first) then first
          else Fragment.mk none none none none none
            (some (deduplicateSchemas (first :: rest))))) = ps := by
    rw [List.filterMap_congr (g := fun prop =>
      (ps.lookup prop).map (fun v => (prop, v))) ?_]
    · exact assoc_rebuild ps hnd
    · intro x hx
      simp only [h2]
      cases hvx : ps.lookup x with
      | none => simp [Option.toList]
      | some v => simp [Option.toList]
  have h4 : (ps.map Prod.fst).filter (fun prop =>
      (propSchemasFor
        [Fragment.mk (some "object") none (some ps) (some (ps.map Prod.fst)) none none]
        prop).length ==
        ([Fragment.mk (some "object") none (some ps) (some (ps.map Prod.fst))
          none none] : List Fragment).length &&
      ([Fragment.mk (some "object") none (some ps) (some (ps.map Prod.fst))
        none none] : List Fragment).any (fun s =>
          (lookupProp s prop).isSome && requiredHasProp s prop)) = ps.map Prod.fst := by
    refine List.filter_eq_self.mpr ?_
    intro x hx
    have hsx : (ps.lookup x).isSome := by
      refine lookup_isSome_iff.mpr ?_
      simpa [propKeys, Fragment.properties] using hx
    obtain ⟨v, hv⟩ := Option.isSome_iff_exists.mp hsx
    rw [Bool.and_eq_true]
    constructor
    · rw [h2 x, hv]
      rfl
    · simp only [List.any_cons, List.any_nil, Bool.or_false, Bool.and_eq_true]
      refine ⟨?_, ?_⟩
      · simp [lookupProp, Fragment.properties, hv]
      · simp only [requiredHasProp, Fragment.required]
        simpa using hx
  rw [h3, h4]
  have hlen : (ps.map Prod.fst).length > 0 := by
    rw [List.length_map]
    exact List.length_pos.mpr hne
  rw [if_pos hlen]

/-- C7 witness: the singleton merge fixes a one-property object fragment
whose `required` is its key list. -/
theorem mergeObjectSchemas_singleton_identity_witness :
    mergeObjectSchemas
        [Fragment.mk (some "object") none (some [("a", Fragment.typeOnly "string")])
          (some ["a"]) none none] =
      Fragment.mk (some "object") none (some [("a", Fragment.typeOnly "string")])
        (some ["a"]) none none :=
  mergeObjectSchemas_singleton_identity [("a", Fragment.typeOnly "string")]
    (by decide) (by decide)

theorem noRequiredList_strip (l : List Fragment)
    (h : ∀ x ∈ l, noRequiredAnywhere (stripRequired x) = true) :
    noRequiredList (stripRequiredList l) = true := by
  induction l with
  | nil => rfl
  | cons x xs ih =>
    simp only [stripRequiredList, noRequiredList, Bool.and_eq_true]
    exact ⟨h x (List.mem_cons_self x xs),
      ih (fun y hy => h y (List.mem_cons_of_mem x hy))⟩

theorem noRequiredProps_strip (ps : List (String × Fragment))
    (h : ∀ kv ∈ ps, noRequiredAnywhere (stripRequired kv.2) = true) :
    noRequiredProps (stripRequiredProps ps) = true := by
  induction ps with
  | nil => rfl
  | cons kv rest ih =>
    obtain ⟨k, v⟩ := kv
    simp only [stripRequiredProps, noRequiredProps, Bool.and_eq_true]
    exact ⟨h (k, v) (List.mem_cons_self _ rest),
      ih (fun y hy => h y (List.mem_cons_of_mem _ hy))⟩

theorem sameExceptRequiredList_strip (l : List Fragment)
    (h : ∀ x ∈ l, sameExceptRequired x (stripRequired x) = true) :
    sameExceptRequiredList l (stripRequiredList l) = true := by
  induction l with
  | nil => rfl
  | cons x xs ih =>
    simp only [stripRequiredList, sameExceptRequiredList, Bool.and_eq_true]
    exact ⟨h x (List.mem_cons_self x xs),
      ih (fun y hy => h y (List.mem_cons_of_mem x hy))⟩

theorem sameExceptRequiredProps_strip (ps : List (String × Fragment))
    (h : ∀ kv ∈ ps, sameExceptRequired kv.2 (stripRequired kv.2) = true) :
    sameExceptRequiredProps ps (stripRequiredProps ps) = true := by
  induction ps with
  | nil => rfl
  | cons kv rest ih =>
    obtain ⟨k, v⟩ := kv
    simp only [stripRequiredProps, sameExceptRequiredProps, Bool.and_eq_true,
      beq_self_eq_true]
    exact ⟨⟨trivial, h (k, v) (List.mem_cons_self _ rest)⟩,
      ih (fun y hy => h y (List.mem_cons_of_mem _ hy))⟩

theorem stripRequired_spec (f : Fragment) :
    noRequiredAnywhere (stripRequired f) = true ∧
      sameExceptRequired f (stripRequired f) = true := by
  induction f using Fragment.indOn with
  | h t fo p r i o hp hi ho =>
    constructor
    · simp only [stripRequired, noRequiredAnywhere, Bool.and_eq_true]
      refine ⟨⟨⟨rfl, ?_⟩, ?_⟩, ?_⟩
      · cases p with
        | none => rfl
        | some ps =>
          simp only [stripRequiredOptProps, noRequiredOptProps]
          exact noRequiredProps_strip ps (fun kv hkv => (hp ps rfl kv hkv).1)
      · cases i with
        | none => rfl
        | some x =>
          simp only [stripRequiredOptItems, noRequiredOptItems]
          exact (hi x rfl).1
      · cases o with
        | none => rfl
        | some l =>
          simp only [stripRequiredOptOneOf, noRequiredOptOneOf]
          exact noRequiredList_strip l (fun x hx => (ho l rfl x hx).1)
    · simp only [stripRequired, sameExceptRequired, Bool.and_eq_true,
        beq_self_eq_true]
      refine ⟨⟨⟨⟨trivial, trivial⟩, ?_⟩, ?_⟩, ?_⟩
      · cases p with
        | none => rfl
        | some ps =>
          simp only [stripRequiredOptProps, sameExceptRequiredOptProps]
          exact sameExceptRequiredProps_strip ps (fun kv hkv => (hp ps rfl kv hkv).2)
      · cases i with
        | none => rfl
        | some x =>
          simp only [stripRequiredOptItems, sameExceptRequiredOptItems]
          exact (hi x rfl).2
      · cases o with
        | none => rfl
        | some l =>
          simp only [stripRequiredOptOneOf, sameExceptRequiredOptOneOf]
          exact sameExceptRequiredList_strip l (fun x hx => (ho l rfl x hx).2)

/-- C4: with `optimizeForLLM` true (modelled from the spec, the
implementation being absent from `src/`), the returned schema is the
`optimizeForLLM:false` schema with the `required`-stripping pass applied to
its fragment; the stripped tree has no `required` attribute anywhere and
agrees with the unstripped tree on every other attribute at every nesting
level. -/
theorem optimizeForLLM_strips_required_only :
    (∀ (parseResult : Except String Json) (options : JsonSchemaOptions),
      jsonToSchemaWithOptimize parseResult options true =
        Except.map (fun r => ⟨r.schemaUrl, stripRequired r.fragment⟩)
          (jsonToSchemaWithOptimize parseResult options false)) ∧
    (∀ f, noRequiredAnywhere (stripRequired f) = true) ∧
    (∀ f, sameExceptRequired f (stripRequired f) = true) := by
  refine ⟨?_, fun f => (stripRequired_spec f).1, fun f => (stripRequired_spec f).2⟩
  intro parseResult options
  cases parseResult with
  | error m => rfl
  | ok j => rfl

theorem mapItemSchemas_eq_V0 (df : Option Bool) (sv : Option SchemaVersion) :
    ∀ (l : List Json) (d : Nat),
      (∀ x ∈ l, ∀ d2, objectToSchema x ⟨df, sv, none⟩ d2 =
        V0.generateJsonSchema x ⟨df, sv⟩) →
      mapItemSchemas l ⟨df, sv, none⟩ d = V0.mapItemSchemas l ⟨df, sv⟩ := by
  intro l
  induction l with
  | nil => intro d _; simp only [mapItemSchemas, V0.mapItemSchemas]
  | cons x xs ih =>
    intro d h
    simp only [mapItemSchemas, V0.mapItemSchemas]
    rw [h x (List.mem_cons_self x xs) d,
      ih d (fun y hy => h y (List.mem_cons_of_mem x hy))]

theorem mapPropertySchemas_eq_V0 (df : Option Bool) (sv : Option SchemaVersion) :
    ∀ (l : List (String × Json)) (d : Nat),
      (∀ kv ∈ l, ∀ d2, objectToSchema kv.2 ⟨df, sv, none⟩ d2 =
        V0.generateJsonSchema kv.2 ⟨df, sv⟩) →
      mapPropertySchemas l ⟨df, sv, none⟩ d = V0.mapPropertySchemas l ⟨df, sv⟩ := by
  intro l
  induction l with
  | nil => intro d _; simp only [mapPropertySchemas, V0.mapPropertySchemas]
  | cons kv xs ih =>
    intro d h
    obtain ⟨k, v⟩ := kv
    simp only [mapPropertySchemas, V0.mapPropertySchemas]
    rw [h (k, v) (List.mem_cons_self _ xs) d,
      ih d (fun y hy => h y (List.mem_cons_of_mem _ hy))]

theorem objectToSchema_unbounded_eq_V0 (df : Option Bool)
    (sv : Option SchemaVersion) :
    ∀ (v : Json) (d : Nat),
      objectToSchema v ⟨df, sv, none⟩ d = V0.generateJsonSchema v ⟨df, sv⟩ := by
  intro v
  induction v using Json.indOn with
  | hnull => intro d; simp only [objectToSchema, V0.generateJsonSchema]
  | hbool b =>
    intro d
    simp only [objectToSchema, V0.generateJsonSchema, generatePrimitiveSchema,
      V0.generatePrimitiveSchema]
  | hnum p i =>
    intro d
    simp only [objectToSchema, V0.generateJsonSchema, generatePrimitiveSchema,
      V0.generatePrimitiveSchema]
  | hstr s =>
    intro d
    simp only [objectToSchema, V0.generateJsonSchema, generatePrimitiveSchema,
      V0.generatePrimitiveSchema, generateStringSchema, V0.generateStringSchema]
  | hother t =>
    intro d
    simp only [objectToSchema, V0.generateJsonSchema, generatePrimitiveSchema,
      V0.generatePrimitiveSchema]
  | harr elements ih =>
    intro d
    have hmap := mapItemSchemas_eq_V0 df sv elements (d + 1) ih
    simp only [objectToSchema, V0.generateJsonSchema, generateArraySchema,
      V0.generateArraySchema, depthReachedAt, Bool.false_eq_true, if_neg]
    rw [hmap]
    simp
  | hobj fields ih =>
    intro d
    have hmap := mapPropertySchemas_eq_V0 df sv fields (d + 1) ih
    simp only [objectToSchema, V0.generateJsonSchema, generateObjectSchema,
      V0.generateObjectSchema, depthReachedAt, Bool.false_eq_true, if_neg]
    rw [hmap]
    simp

/-- C10: for every value and every options record whose `depth` option is
unset, the older `generateJsonSchema` and the newer `objectToSchema` (called
with `currentDepth` 0) return structurally equal fragments. -/
theorem objectToSchema_refines_generateJsonSchema (v : Json)
    (options : JsonSchemaOptions) (h : options.depth = none) :
    objectToSchema v options 0 =
      V0.generateJsonSchema v ⟨options.detectFormat, options.schemaVersion⟩ := by
  obtain ⟨df, sv, dep⟩ := options
  cases h
  exact objectToSchema_unbounded_eq_V0 df sv v 0

/-- C10 witness: the two implementations agree on a concrete object with an
unset depth option. -/
theorem objectToSchema_refines_generateJsonSchema_witness :
    objectToSchema (.obj [("name", .str "Alice")]) {} 0 =
      V0.generateJsonSchema (.obj [("name", .str "Alice")]) ⟨none, none⟩ :=
  objectToSchema_refines_generateJsonSchema _ {} rfl

theorem goodFragProps_iff :
    ∀ ps : List (String × Fragment),
      (goodFragProps ps = true ↔ ∀ kv ∈ ps, goodFrag kv.2 = true) := by
  intro ps
  induction ps with
  | nil => simp [goodFragProps]
  | cons kv rest ih =>
    obtain ⟨k, v⟩ := kv
    simp only [goodFragProps, Bool.and_eq_true, ih, List.mem_cons]
    constructor
    · rintro ⟨h1, h2⟩ y hy
      rcases hy with hy | hy
      · rw [hy]; exact h1
      · exact h2 y hy
    · intro h
      exact ⟨h (k, v) (Or.inl rfl), fun y hy => h y (Or.inr hy)⟩

theorem goodFragList_iff :
    ∀ l : List Fragment, (goodFragList l = true ↔ ∀ x ∈ l, goodFrag x = true) := by
  intro l
  induction l with
  | nil => simp [goodFragList]
  | cons x rest ih =>
    simp only [goodFragList, Bool.and_eq_true, ih, List.mem_cons]
    constructor
    · rintro ⟨h1, h2⟩ y hy
      rcases hy with hy | hy
      · rw [hy]; exact h1
      · exact h2 y hy
    · intro h
      exact ⟨h x (Or.inl rfl), fun y hy => h y (Or.inr hy)⟩

theorem fragListDistinct_iff :
    ∀ l : List Fragment, (fragListDistinct l = true ↔ l.Nodup) := by
  intro l
  induction l with
  | nil => simp [fragListDistinct]
  | cons x rest ih =>
    simp only [fragListDistinct, Bool.and_eq_true, Bool.not_eq_true',
      List.nodup_cons, ih]
    constructor
    · rintro ⟨h1, h2⟩
      refine ⟨?_, h2⟩
      intro hx
      have hc : rest.contains x = true := List.elem_iff.mpr hx
      rw [hc] at h1
      cases h1
    · rintro ⟨h1, h2⟩
      refine ⟨?_, h2⟩
      rw [← Bool.not_eq_true (rest.contains x)]
      intro hc
      exact h1 (List.elem_iff.mp hc)

theorem goodFrag_lookup {s v : Fragment} {p : String}
    (hs : goodFrag s = true) (hv : lookupProp s p = some v) :
    goodFrag v = true := by
  obtain ⟨t, f, pr, r, i, o⟩ := s
  simp only [goodFrag, Bool.and_eq_true] at hs
  simp only [lookupProp, Fragment.properties] at hv
  cases pr with
  | none => simp [List.lookup] at hv
  | some ps =>
    simp only [Option.getD_some] at hv
    have hmem := lookup_some_mem hv
    have hgood := hs.1.1
    simp only [goodFragOptProps] at hgood
    exact (goodFragProps_iff ps).mp hgood (p, v) hmem

theorem propSchemasFor_mem {schemas : List Fragment} {prop : String}
    {f : Fragment} (h : f ∈ propSchemasFor schemas prop) :
    ∃ s ∈ schemas, lookupProp s prop = some f := by
  unfold propSchemasFor at h
  rw [List.mem_filterMap] at h
  exact h

theorem mergeObjectSchemas_goodFrag (schemas : List Fragment)
    (h : ∀ s ∈ schemas, goodFrag s = true) :
    goodFrag (mergeObjectSchemas schemas) = true := by
  have hval : ∀ prop f, f ∈ propSchemasFor schemas prop → goodFrag f = true := by
    intro prop f hf
    obtain ⟨s, hs, hlook⟩ := propSchemasFor_mem hf
    exact goodFrag_lookup (h s hs) hlook
  simp only [mergeObjectSchemas, goodFrag, goodFragOptProps, goodFragOptItems,
    goodFragOptOneOf, Bool.and_true]
  rw [goodFragProps_iff]
  intro kv hkv
  rw [List.mem_filterMap] at hkv
  obtain ⟨prop, _, hg⟩ := hkv
  cases hps : propSchemasFor schemas prop with
  | nil => rw [hps] at hg; cases hg
  | cons first rest =>
    rw [hps] at hg
    simp only [Option.some.injEq] at hg
    subst hg
    have hfirst : goodFrag first = true :=
      hval prop first (hps ▸ List.mem_cons_self first rest)
    by_cases hall : rest.all (fun s => s == first) = true
    · rw [if_pos hall]
      exact hfirst
    · rw [if_neg hall]
      show goodFrag (Fragment.mk none none none none none
        (some (deduplicateSchemas (first :: rest)))) = true
      simp only [goodFrag, goodFragOptProps, goodFragOptItems, goodFragOptOneOf,
        Bool.and_eq_true, Bool.true_and]
      have hmemdd : ∀ x ∈ deduplicateSchemas (first :: rest), goodFrag x = true := by
        intro x hx
        unfold deduplicateSchemas at hx
        rw [mem_dedupFirst] at hx
        exact hval prop x (hps ▸ hx)
      refine ⟨⟨?_, ?_⟩, ?_⟩
      · rw [decide_eq_true_iff]
        rw [List.all_eq_true] at hall
        push_neg at hall
        obtain ⟨b, hb, hbne⟩ := hall
        have hbnef : b ≠ first := by
          intro he
          exact hbne (by rw [he, beq_self_eq_true])
        refine two_mem_length_ge_two (a := b) (b := first) ?_ ?_ hbnef
        · unfold deduplicateSchemas
          rw [mem_dedupFirst]
          exact List.mem_cons_of_mem first hb
        · unfold deduplicateSchemas
          rw [mem_dedupFirst]
          exact List.mem_cons_self first rest
      · rw [fragListDistinct_iff]
        exact nodup_dedupFirst _
      · rw [goodFragList_iff]
        exact hmemdd

theorem mem_mapItemSchemas (o : JsonSchemaOptions) (d : Nat) (f : Fragment) :
    ∀ l : List Json, f ∈ mapItemSchemas l o d → ∃ x ∈ l, f = objectToSchema x o d := by
  intro l
  induction l with
  | nil =>
    intro h
    simp only [mapItemSchemas] at h
    exact absurd h (List.not_mem_nil f)
  | cons x xs ih =>
    intro h
    simp only [mapItemSchemas, List.mem_cons] at h
    rcases h with h | h
    · exact ⟨x, List.mem_cons_self x xs, h⟩
    · obtain ⟨y, hy, hf⟩ := ih h
      exact ⟨y, List.mem_cons_of_mem x hy, hf⟩

theorem mem_mapPropertySchemas (o : JsonSchemaOptions) (d : Nat)
    (kv : String × Fragment) :
    ∀ l : List (String × Json), kv ∈ mapPropertySchemas l o d →
      ∃ kw ∈ l, kv = (kw.1, objectToSchema kw.2 o d) := by
  intro l
  induction l with
  | nil =>
    intro h
    simp only [mapPropertySchemas] at h
    exact absurd h (List.not_mem_nil kv)
  | cons kw xs ih =>
    intro h
    obtain ⟨k, v⟩ := kw
    simp only [mapPropertySchemas, List.mem_cons] at h
    rcases h with h | h
    · exact ⟨(k, v), List.mem_cons_self _ xs, h⟩
    · obtain ⟨y, hy, hf⟩ := ih h
      exact ⟨y, List.mem_cons_of_mem _ hy, hf⟩

theorem generateStringSchema_goodFrag (s : String) (o : JsonSchemaOptions) :
    goodFrag (generateStringSchema s o) = true := by
  unfold generateStringSchema
  repeat' split
  all_goals rfl

theorem objectToSchema_goodFrag (v : Json) :
    ∀ (options : JsonSchemaOptions) (d : Nat),
      goodFrag (objectToSchema v options d) = true := by
  induction v using Json.indOn with
  | hnull => intro o d; simp only [objectToSchema]; rfl
  | hbool b => intro o d; simp only [objectToSchema, generatePrimitiveSchema]; rfl
  | hnum p i =>
    intro o d
    simp only [objectToSchema, generatePrimitiveSchema]
    split <;> rfl
  | hstr s =>
    intro o d
    simp only [objectToSchema, generatePrimitiveSchema]
    exact generateStringSchema_goodFrag s o
  | hother t => intro o d; simp only [objectToSchema, generatePrimitiveSchema]; rfl
  | harr elements ih =>
    intro o d
    simp only [objectToSchema, generateArraySchema]
    split
    · rfl
    · split
      · rfl
      · rename_i hdepth hne
        have hmemgood : ∀ f ∈ mapItemSchemas elements o (d + 1), goodFrag f = true := by
          intro f hf
          obtain ⟨x, hx, hfx⟩ := mem_mapItemSchemas o (d + 1) f elements hf
          rw [hfx]
          exact ih x hx o (d + 1)
        split
        · split
          · simp only [goodFrag, goodFragOptProps, goodFragOptItems,
              goodFragOptOneOf, Bool.and_true, Bool.true_and]
            refine mergeObjectSchemas_goodFrag _ ?_
            intro s hs
            rw [List.mem_filter] at hs
            exact hmemgood s hs.1
          · rfl
        · rename_i hlen
          simp only [goodFrag, goodFragOptProps, goodFragOptItems,
            goodFragOptOneOf, Bool.and_true, Bool.true_and, Bool.and_eq_true]
          have hne2 : elements ≠ [] := by
            intro he
            rw [he] at hne
            exact hne rfl
          have hMne : mapItemSchemas elements o (d + 1) ≠ [] := by
            match elements, hne2 with
            | x :: xs, _ => simp [mapItemSchemas]
          have hdd : ∀ x ∈ deduplicateSchemas (mapItemSchemas elements o (d + 1)),
              goodFrag x = true := by
            intro x hx
            unfold deduplicateSchemas at hx
            rw [mem_dedupFirst] at hx
            exact hmemgood x hx
          refine ⟨⟨?_, ?_⟩, ?_⟩
          · rw [decide_eq_true_iff]
            have hlen2 : (dedupFirst
                ((mapItemSchemas elements o (d + 1)).map typeKey)).length ≠ 1 := by
              intro he
              exact hlen (by rw [he]; rfl)
            have hpos : 0 < (dedupFirst
                ((mapItemSchemas elements o (d + 1)).map typeKey)).length := by
              have hx0 : ∃ y, y ∈ (mapItemSchemas elements o (d + 1)).map typeKey := by
                match helts : mapItemSchemas elements o (d + 1), hMne with
                | z :: zs, _ => exact ⟨typeKey z, by simp⟩
              obtain ⟨y, hy⟩ := hx0
              exact List.length_pos_of_mem (mem_dedupFirst.mpr hy)
            obtain ⟨t1, ht1, t2, ht2, ht12⟩ :=
              nodup_two_exists
                (l := dedupFirst ((mapItemSchemas elements o (d + 1)).map typeKey))
                (nodup_dedupFirst _) (by omega)
            rw [mem_dedupFirst, List.mem_map] at ht1 ht2
            obtain ⟨f1, hf1, hf1t⟩ := ht1
            obtain ⟨f2, hf2, hf2t⟩ := ht2
            have hf12 : f1 ≠ f2 := by
              intro he
              exact ht12 (by rw [← hf1t, ← hf2t, he])
            refine two_mem_length_ge_two ?_ ?_ hf12
            · unfold deduplicateSchemas
              rw [mem_dedupFirst]
              exact hf1
            · unfold deduplicateSchemas
              rw [mem_dedupFirst]
              exact hf2
          · rw [fragListDistinct_iff]
            exact nodup_dedupFirst _
          · rw [goodFragList_iff]
            exact hdd
  | hobj fields ih =>
    intro o d
    simp only [objectToSchema, generateObjectSchema]
    split
    · rfl
    · simp only [goodFrag, goodFragOptProps, goodFragOptItems, goodFragOptOneOf,
        Bool.and_true]
      rw [goodFragProps_iff]
      intro kv hkv
      obtain ⟨kw, hkw, hkveq⟩ := mem_mapPropertySchemas o (d + 1) kv fields hkv
      rw [hkveq]
      exact ih kw hkw o (d + 1)

/-- C6 counterexample: `mergeObjectSchemas` copies input sub-fragments into
its output verbatim, so an input fragment carrying a length-one `oneOf`
produces an output fragment violating the claimed invariant. -/
theorem mergeObjectSchemas_copies_bad_oneOf :
    goodFrag
      (mergeObjectSchemas
        [Fragment.mk (some "object") none
          (some [("a", Fragment.mk none none none none none
            (some [Fragment.typeOnly "string"]))])
          none none none]) = false := by
  decide

/-- C6 amended: every fragment produced by inference satisfies the `oneOf`
invariant (each `oneOf` anywhere in the tree holds at least two pairwise
structurally-distinct fragments) unconditionally, and `mergeObjectSchemas`
preserves the invariant: its output satisfies it whenever all input
fragments do. -/
theorem oneOf_invariant :
    (∀ (v : Json) (options : JsonSchemaOptions) (d : Nat),
      goodFrag (objectToSchema v options d) = true) ∧
    (∀ schemas : List Fragment, (∀ s ∈ schemas, goodFrag s = true) →
      goodFrag (mergeObjectSchemas schemas) = true) :=
  ⟨fun v options d => objectToSchema_goodFrag v options d,
   fun schemas h => mergeObjectSchemas_goodFrag schemas h⟩

/-- C6 witness: the merge preservation clause at a concrete well-formed
input fragment. -/
theorem oneOf_invariant_witness :
    goodFrag
      (mergeObjectSchemas
        [Fragment.mk (some "object") none
          (some [("a", Fragment.typeOnly "string")]) (some ["a"]) none none]) = true :=
  oneOf_invariant.2 _ (by decide)
